import Mathlib

/-!
# pgbench argument parser: a shallow embedding

The repository is one C file, `pgbench.c`: `main` fills an `Inputs` record with
defaults, `parse_args` drives `getopt_long` over `argv` and updates the record,
and `main` prints one greeting line and returns `0`.

Modelling decisions.

* A C string is the list of its characters before the terminator (`CStr`).
* `uint16_t` fields are naturals; every store reduces modulo `2 ^ 16`.
* `long` is the 64-bit type of LP64 platforms; `int` values are integers.
* `errno`, the standard output and the scanning position of `getopt_long` are
  explicit state.  Standard output is recorded as the list of `printf` calls
  made by the program, each with its format arguments.
* The C library is not part of the repository.  `strtol`, `strcasecmp` and
  `getopt_long` are modelled after ISO C / POSIX / the GNU implementation.  Two
  points on which implementations differ are parameters (`Libc`): whether
  `strtol` reports `EINVAL` when no digits are found, and whether `getopt_long`
  stops at the first non-option argument (`POSIXLY_CORRECT`).
* Diagnostics that `getopt_long` itself writes to standard error, and the
  permutation it applies to `argv`, are not observable by the program and are
  left out.
-/

namespace Pgbench

/-! ## Data model -/

/-- The characters of a C string, terminator excluded. -/
abbrev CStr := List Char

/-- Source: `typedef enum { TEXT = 1, JSON = 2 } OutputFormat`. -/
inductive OutputFormat where
  | TEXT
  | JSON
  deriving DecidableEq, Repr

/-- Source: `struct Inputs`.  The five numeric members are `uint16_t`. -/
structure Inputs where
  pgport : Nat
  concurrency : Nat
  duration : Nat
  timeout : Nat
  warmup_time : Nat
  output_format : OutputFormat
  pghost : CStr
  pguser : CStr
  queryfile : CStr
  deriving DecidableEq, Repr

/-- One `printf` call of the program, with its format arguments.

* `convFail name d e` is
  `"Could not convert %s argument. Defaulting to %d. Error: %d\n"`;
* `invalidFormat s` is `"Invalid output format %s. Defaulting to TEXT\n"`;
* `hello n` is `"Hello. concurrency: %d\n"`. -/
inductive Line where
  | convFail (name : String) (d : Int) (e : Nat)
  | invalidFormat (optarg : CStr)
  | hello (concurrency : Nat)
  deriving DecidableEq, Repr

/-- Implementation-defined behaviour of the C library. -/
structure Libc where
  /-- `strtol` stores `EINVAL` in `errno` when no conversion is performed
  (allowed by POSIX; done by BSD and musl, not by glibc). -/
  einvalOnNoConversion : Bool
  /-- `getopt_long` stops at the first non-option instead of permuting. -/
  posixlyCorrect : Bool
  deriving DecidableEq, Repr

/-- The GNU C library with `POSIXLY_CORRECT` unset. -/
def glibc : Libc := ⟨false, false⟩

/-- The part of the process state that `parse_args` reads and writes. -/
structure Proc where
  inputs : Inputs
  errno : Nat
  out : List Line
  deriving DecidableEq, Repr

/-- Value of `EINVAL` in `errno.h`. -/
def EINVAL : Nat := 22

/-- Value of `ERANGE` in `errno.h`. -/
def ERANGE : Nat := 34

/-- Value of `LONG_MAX` in `limits.h` (LP64). -/
def LONG_MAX : Int := 2 ^ 63 - 1

/-- Value of `LONG_MIN` in `limits.h` (LP64). -/
def LONG_MIN : Int := -(2 ^ 63)

/-- Conversion of an integer value to `uint16_t`. -/
def toUint16 (z : Int) : Nat := (z % 65536).toNat

/-! ## C library -/

/-- The function `isspace` of `ctype.h` in the C locale. -/
def isspace (c : Char) : Bool :=
  c.toNat = 32 || (9 ≤ c.toNat && c.toNat ≤ 13)

/-- The function `isdigit` of `ctype.h`. -/
def isdigit (c : Char) : Bool :=
  48 ≤ c.toNat && c.toNat ≤ 57

/-- The function `tolower` of `ctype.h` in the C locale. -/
def tolower (c : Char) : Char :=
  if 65 ≤ c.toNat ∧ c.toNat ≤ 90 then Char.ofNat (c.toNat + 32) else c

/-- Leading white space is skipped by `strtol`. -/
def skipSpace : CStr → CStr
  | [] => []
  | c :: cs => if isspace c then skipSpace cs else c :: cs

/-- Reads the longest run of decimal digits: the accumulated value and the
unread rest. -/
def scanDigits (acc : Nat) : CStr → Nat × CStr
  | [] => (acc, [])
  | c :: cs => if isdigit c then scanDigits (acc * 10 + (c.toNat - 48)) cs else (acc, c :: cs)

/-- Value of a string of decimal digits read from left to right, `acc` being
the value read so far. -/
def digitsValue (acc : Nat) (l : CStr) : Nat :=
  l.foldl (fun a c => a * 10 + (c.toNat - 48)) acc

/-- What a call of `strtol` leaves behind. -/
structure StrtolResult where
  value : Int
  endptr : CStr
  errno : Nat
  deriving DecidableEq, Repr

/-- The optional sign that `strtol` accepts before the digits: whether it is
a minus sign, and the text after it. -/
def scanSign : CStr → Bool × CStr
  | '-' :: r => (true, r)
  | '+' :: r => (false, r)
  | s => (false, s)

/-- The conversion proper of `strtol`, once white space and sign are read:
`body` is where the digits are expected. -/
def strtolBody (libc : Libc) (nptr : CStr) (neg : Bool) (body : CStr) (errno : Nat) :
    StrtolResult :=
  match body with
  | c :: _ =>
    if isdigit c then
      let r := scanDigits 0 body
      let z : Int := if neg then -(r.1 : Int) else (r.1 : Int)
      if z > LONG_MAX then ⟨LONG_MAX, r.2, ERANGE⟩
      else if z < LONG_MIN then ⟨LONG_MIN, r.2, ERANGE⟩
      else ⟨z, r.2, errno⟩
    else ⟨0, nptr, if libc.einvalOnNoConversion then EINVAL else errno⟩
  | [] => ⟨0, nptr, if libc.einvalOnNoConversion then EINVAL else errno⟩

/-- The call `strtol(nptr, &endptr, 10)` with the given `errno` on entry:
optional white space, optional sign, decimal digits.  Without digits the
result is `0`, `endptr` is `nptr`, and `errno` is untouched unless the library
reports `EINVAL`.  A value outside `long` is clamped and `errno` becomes
`ERANGE`.  Otherwise `errno` is untouched. -/
def strtol (libc : Libc) (nptr : CStr) (errno : Nat) : StrtolResult :=
  strtolBody libc nptr (scanSign (skipSpace nptr)).1 (scanSign (skipSpace nptr)).2 errno

/-- The function `strcasecmp` of `strings.h` in the C locale: the difference of
the first pair of characters that differ after `tolower`, the terminator
counting as `0`. -/
def strcasecmp : CStr → CStr → Int
  | [], [] => 0
  | [], b :: _ => 0 - ((tolower b).toNat : Int)
  | a :: _, [] => ((tolower a).toNat : Int)
  | a :: as, b :: bs =>
    if tolower a = tolower b then strcasecmp as bs
    else ((tolower a).toNat : Int) - ((tolower b).toNat : Int)

/-! ## getopt_long -/

/-- Source: the short option string passed to `getopt_long`. -/
def optstring : CStr := "C:D:T:W:O:H:P:U:d:Q:".toList

/-- Source: `long_options`, as name and `val`.  Every entry has
`required_argument` and a null `flag`. -/
def long_options : List (CStr × Char) :=
  [ ("concurrency".toList, 'C'),
    ("duration".toList, 'D'),
    ("timeout".toList, 'T'),
    ("warmup-time".toList, 'W'),
    ("output-format".toList, 'O'),
    ("pghost".toList, 'H'),
    ("pgport".toList, 'P'),
    ("pguser".toList, 'U'),
    ("driver".toList, 'd'),
    ("queryfile".toList, 'Q') ]

/-- Scanning state of `getopt_long`: the elements of `argv` from `optind` on
(the element being scanned excluded) and the unread rest of the cluster of
short options being scanned. -/
structure Getopt where
  rest : List CStr
  nextchar : CStr
  deriving DecidableEq, Repr

/-- An element of `argv` that is not an option: it does not start with `-`, or
it is `-` alone. -/
def isNonOption : CStr → Bool
  | '-' :: _ :: _ => false
  | _ => true

/-- Whether the short option `c` is in the option string and takes an
argument: `none` when it is not an option character. -/
def shortLookup (c : Char) : CStr → Option Bool
  | [] => none
  | x :: xs =>
    if x = c then
      (match xs with
        | ':' :: _ => some true
        | _ => some false)
    else shortLookup c xs

/-- Resolution of a long option name: an exact match, else the only entry the
name abbreviates.  `none` when the name is unknown or ambiguous. -/
def longLookup (name : CStr) : Option Char :=
  match long_options.find? (fun p => p.1 == name) with
  | some p => some p.2
  | none =>
    match long_options.filter (fun p => name.isPrefixOf p.1) with
    | [p] => some p.2
    | _ => none

/-- One short option is read from the cluster `c :: cs`. -/
def getoptShort (c : Char) (cs : CStr) (rest : List CStr) :
    Option (Char × CStr) × Getopt :=
  if c = ':' ∨ c = ';' then (some ('?', []), ⟨rest, cs⟩)
  else
    match shortLookup c optstring with
    | none => (some ('?', []), ⟨rest, cs⟩)
    | some false => (some (c, []), ⟨rest, cs⟩)
    | some true =>
      match cs with
      | _ :: _ => (some (c, cs), ⟨rest, []⟩)
      | [] =>
        match rest with
        | [] => (some ('?', []), ⟨[], []⟩)
        | a :: as => (some (c, a), ⟨as, []⟩)

/-- A long option is read: `body` is the element of `argv` without its leading
`--`. -/
def getoptLong (body : CStr) (rest : List CStr) : Option (Char × CStr) × Getopt :=
  let name := body.takeWhile (fun ch => ch != '=')
  let tail := body.dropWhile (fun ch => ch != '=')
  match longLookup name with
  | none => (some ('?', []), ⟨rest, []⟩)
  | some v =>
    match tail with
    | _ :: value => (some (v, value), ⟨rest, []⟩)
    | [] =>
      match rest with
      | [] => (some ('?', []), ⟨[], []⟩)
      | a :: as => (some (v, a), ⟨as, []⟩)

/-- One call of `getopt_long(argc, argv, optstring, long_options, _)`.
The result is `none` for `-1`, else the character returned together with
`optarg` (empty when `optarg` is null, which the program then never reads). -/
def getopt_long (libc : Libc) (g : Getopt) : Option (Char × CStr) × Getopt :=
  match g.nextchar with
  | c :: cs => getoptShort c cs g.rest
  | [] =>
    let rest := if libc.posixlyCorrect then g.rest else g.rest.dropWhile isNonOption
    match rest with
    | [] => (none, ⟨[], []⟩)
    | a :: as =>
      if a = ['-', '-'] then (none, ⟨[], []⟩)
      else
        match a with
        | '-' :: '-' :: body => getoptLong body as
        | '-' :: c :: cs => getoptShort c cs as
        | _ => (none, ⟨a :: as, []⟩)

/-! ## The program -/

/-- The `uint16_t` member an `input` pointer designates. -/
inductive Field where
  | pgport
  | concurrency
  | duration
  | timeout
  | warmup_time
  deriving DecidableEq, Repr

/-- Store through the pointer: `*input = v`. -/
def Field.set (f : Field) (i : Inputs) (v : Nat) : Inputs :=
  match f with
  | .pgport => { i with pgport := v }
  | .concurrency => { i with concurrency := v }
  | .duration => { i with duration := v }
  | .timeout => { i with timeout := v }
  | .warmup_time => { i with warmup_time := v }

/-- Load through the pointer: `*input`. -/
def Field.get (f : Field) (i : Inputs) : Nat :=
  match f with
  | .pgport => i.pgport
  | .concurrency => i.concurrency
  | .duration => i.duration
  | .timeout => i.timeout
  | .warmup_time => i.warmup_time

/-- Source: `parse_int_args(input, optarg, name, def)`. -/
def parse_int_args (libc : Libc) (input : Field) (optarg : CStr) (name : String)
    (d : Int) (st : Proc) : Proc :=
  let r := strtol libc optarg st.errno
  let st1 : Proc := { st with inputs := input.set st.inputs (toUint16 r.value), errno := r.errno }
  if st1.errno = EINVAL ∨ st1.errno = ERANGE then
    { st1 with
      out := st1.out ++ [Line.convFail name d st1.errno],
      inputs := input.set st1.inputs (toUint16 d) }
  else st1

/-- Source: the `switch (c)` in the loop of `parse_args`. -/
def handle (libc : Libc) (c : Char) (optarg : CStr) (st : Proc) : Proc :=
  if c = 'C' then parse_int_args libc .concurrency optarg "concurrency" 10 st
  else if c = 'D' then parse_int_args libc .duration optarg "duration" 30 st
  else if c = 'T' then parse_int_args libc .timeout optarg "timeout" 2 st
  else if c = 'W' then parse_int_args libc .warmup_time optarg "warmup time" 5 st
  else if c = 'O' then
    if strcasecmp optarg "text".toList = 0 then
      { st with inputs := { st.inputs with output_format := .TEXT } }
    else if strcasecmp optarg "json".toList = 0 then
      { st with inputs := { st.inputs with output_format := .JSON } }
    else { st with out := st.out ++ [Line.invalidFormat optarg] }
  else if c = 'H' then { st with inputs := { st.inputs with pghost := optarg } }
  else if c = 'P' then parse_int_args libc .pgport optarg "pgport" 5432 st
  else if c = 'U' then { st with inputs := { st.inputs with pguser := optarg } }
  else if c = 'd' then st
  else if c = 'Q' then { st with inputs := { st.inputs with queryfile := optarg } }
  else st

/-- Source: the `while (1)` loop of `parse_args`, unrolled at most `fuel`
times.  `none` means that the loop has not ended within `fuel` iterations. -/
def parseLoop (libc : Libc) : Nat → Getopt → Proc → Option Proc
  | 0, _, _ => none
  | fuel + 1, g, st =>
    match getopt_long libc g with
    | (none, _) => some st
    | (some (c, optarg), g1) => parseLoop libc fuel g1 (handle libc c optarg st)

/-- Total size of a list of `argv` elements, terminators included. -/
def argvSize (l : List CStr) : Nat := (l.map (fun a => a.length + 1)).sum

/-- Size of what `getopt_long` has left to scan. -/
def Getopt.size (g : Getopt) : Nat :=
  g.nextchar.length + argvSize g.rest

/-- The scanning state before the first call: `optind` is `1`. -/
def Getopt.start (argv : List CStr) : Getopt := ⟨argv.drop 1, []⟩

/-- Source: `parse_args(inputs, argc, argv)`.  The loop is given one iteration
more than there are characters and elements to scan. -/
def parse_args (libc : Libc) (st : Proc) (argv : List CStr) : Option Proc :=
  parseLoop libc ((Getopt.start argv).size + 1) (Getopt.start argv) st

/-- The loop of `parse_args` from scanning state `g`, with the fuel that
`parse_args` gives it. -/
def parseFrom (libc : Libc) (g : Getopt) (st : Proc) : Option Proc :=
  parseLoop libc (g.size + 1) g st

/-- Source: the initialiser of `inputs` in `main`. -/
def defaults : Inputs :=
  { pgport := 5432,
    concurrency := 10,
    duration := 30,
    timeout := 2,
    warmup_time := 5,
    output_format := .TEXT,
    pghost := "127.0.0.1".toList,
    pguser := "postgres".toList,
    queryfile := [] }

/-- How a run of the program ends: the final record, what was printed and the
exit status. -/
structure Exit where
  inputs : Inputs
  out : List Line
  status : Int
  deriving DecidableEq, Repr

/-- Source: `die(msg)`: `perror` writes to standard error, then `exit(1)`. -/
def die (st : Proc) : Exit := ⟨st.inputs, st.out, 1⟩

/-- Source: `main(argc, argv)`.  At program start `errno` is `0`. -/
def main (libc : Libc) (argv : List CStr) : Option Exit :=
  match parse_args libc ⟨defaults, 0, []⟩ argv with
  | none => none
  | some st => some ⟨st.inputs, st.out ++ [Line.hello st.inputs.concurrency], 0⟩

/-- The sequence of results other than `-1` that `getopt_long` returns on the
way, within `fuel` calls. -/
def getoptTrace (libc : Libc) : Nat → Getopt → List (Char × CStr)
  | 0, _ => []
  | fuel + 1, g =>
    match getopt_long libc g with
    | (none, _) => []
    | (some e, g1) => e :: getoptTrace libc fuel g1

/-- The options `parse_args` handles for `argv`, in order. -/
def optionsOf (libc : Libc) (argv : List CStr) : List (Char × CStr) :=
  getoptTrace libc ((Getopt.start argv).size + 1) (Getopt.start argv)

/-- The decimal numeral of a natural number, as `printf` writes it for `%u`. -/
def decimal (n : Nat) : CStr := (Nat.repr n).toList

/-- The decimal numeral of an integer, as `printf` writes it for `%ld`. -/
def decimalInt : Int → CStr
  | .ofNat m => decimal m
  | .negSucc m => '-' :: decimal (m + 1)

/-- The text in which `strtol` finds nothing to convert: after optional white
space and an optional sign it does not continue with a digit. -/
def noDigits (s : CStr) : Bool :=
  match (scanSign (skipSpace s)).2 with
  | [] => true
  | c :: _ => !isdigit c

/-- The arguments as the shell passes them. -/
def args (l : List String) : List CStr := l.map String.toList

/-- The two spellings of each option, with the character `getopt_long`
returns for it. -/
def spellings : List (CStr × Char) :=
  [ ("-C".toList, 'C'), ("--concurrency".toList, 'C'),
    ("-D".toList, 'D'), ("--duration".toList, 'D'),
    ("-T".toList, 'T'), ("--timeout".toList, 'T'),
    ("-W".toList, 'W'), ("--warmup-time".toList, 'W'),
    ("-O".toList, 'O'), ("--output-format".toList, 'O'),
    ("-H".toList, 'H'), ("--pghost".toList, 'H'),
    ("-P".toList, 'P'), ("--pgport".toList, 'P'),
    ("-U".toList, 'U'), ("--pguser".toList, 'U'),
    ("-d".toList, 'd'), ("--driver".toList, 'd'),
    ("-Q".toList, 'Q'), ("--queryfile".toList, 'Q') ]

end Pgbench

namespace Pgbench

/-! ## Decimal numerals and `strtol` -/

theorem digitChar_toNat (d : Nat) (h : d < 10) : (Nat.digitChar d).toNat = 48 + d := by
  interval_cases d <;> rfl

theorem isdigit_digitChar (d : Nat) (h : d < 10) : isdigit (Nat.digitChar d) = true := by
  interval_cases d <;> rfl

theorem toDigitsCore_append (fuel n : Nat) (ds : List Char) :
    Nat.toDigitsCore 10 fuel n ds = Nat.toDigitsCore 10 fuel n [] ++ ds := by
  induction fuel generalizing n ds with
  | zero => simp [Nat.toDigitsCore]
  | succ f ih =>
    simp only [Nat.toDigitsCore]
    split
    · simp
    · rw [ih (n / 10) (Nat.digitChar (n % 10) :: ds), ih (n / 10) [Nat.digitChar (n % 10)]]
      simp

theorem scanDigits_append (l tl : CStr) (acc : Nat) (hl : ∀ c ∈ l, isdigit c = true) :
    scanDigits acc (l ++ tl) = scanDigits (digitsValue acc l) tl := by
  induction l generalizing acc with
  | nil => rfl
  | cons c cs ih =>
    have hc : isdigit c = true := hl c (List.mem_cons_self _ _)
    simp only [List.cons_append, scanDigits, hc, if_true, digitsValue, List.foldl_cons]
    exact ih _ (fun x hx => hl x (List.mem_cons_of_mem _ hx))

theorem scanDigits_stop (acc : Nat) (tl : CStr)
    (htl : ∀ c cs, tl = c :: cs → isdigit c = false) : scanDigits acc tl = (acc, tl) := by
  cases tl with
  | nil => rfl
  | cons c cs => simp [scanDigits, htl c cs rfl]

theorem toDigitsCore_digits (fuel n : Nat) :
    ∀ c ∈ Nat.toDigitsCore 10 fuel n [], isdigit c = true := by
  induction fuel generalizing n with
  | zero => simp [Nat.toDigitsCore]
  | succ f ih =>
    have hd : n % 10 < 10 := Nat.mod_lt _ (by decide)
    simp only [Nat.toDigitsCore]
    split
    · intro c hc
      simp only [List.mem_singleton] at hc
      rw [hc]; exact isdigit_digitChar _ hd
    · rw [toDigitsCore_append]
      intro c hc
      rcases List.mem_append.mp hc with h | h
      · exact ih _ c h
      · simp only [List.mem_singleton] at h
        rw [h]; exact isdigit_digitChar _ hd

theorem digitsValue_toDigitsCore (fuel n : Nat) (h : n < fuel) :
    digitsValue 0 (Nat.toDigitsCore 10 fuel n []) = n := by
  induction fuel generalizing n with
  | zero => omega
  | succ f ih =>
    have hd : n % 10 < 10 := Nat.mod_lt _ (by decide)
    simp only [Nat.toDigitsCore]
    split
    · rename_i h0
      have hn : n % 10 = n := Nat.mod_eq_of_lt (by omega)
      rw [hn] at hd ⊢
      simp [digitsValue, digitChar_toNat n hd]
    · rename_i h0
      rw [toDigitsCore_append]
      have hlt : n / 10 < f := by omega
      have := ih (n / 10) hlt
      simp only [digitsValue, List.foldl_append, List.foldl_cons, List.foldl_nil] at this ⊢
      rw [this, digitChar_toNat _ hd]
      omega

theorem toDigits_ne_nil (n : Nat) : Nat.toDigits 10 n ≠ [] := by
  unfold Nat.toDigits
  simp only [Nat.toDigitsCore]
  split
  · simp
  · rw [toDigitsCore_append]; simp

/-- Reading back the decimal numeral of `n`. -/
theorem scanDigits_toDigits (n : Nat) (tl : CStr)
    (htl : ∀ c cs, tl = c :: cs → isdigit c = false) :
    scanDigits 0 (Nat.toDigits 10 n ++ tl) = (n, tl) := by
  unfold Nat.toDigits
  rw [scanDigits_append _ _ _ (toDigitsCore_digits _ _), digitsValue_toDigitsCore _ _ (by omega)]
  exact scanDigits_stop _ _ htl

theorem toDigits_head (n : Nat) : ∃ c cs, Nat.toDigits 10 n = c :: cs ∧ isdigit c = true := by
  have hne := toDigits_ne_nil n
  cases h : Nat.toDigits 10 n with
  | nil => exact absurd h hne
  | cons c cs =>
    refine ⟨c, cs, rfl, ?_⟩
    have := toDigitsCore_digits (n + 1) n c
    unfold Nat.toDigits at h
    rw [h] at this
    exact this (List.mem_cons_self _ _)


theorem isdigit_not_space (c : Char) (h : isdigit c = true) : isspace c = false := by
  simp only [isdigit, Bool.and_eq_true, decide_eq_true_eq] at h
  simp only [isspace, Bool.or_eq_false_iff, Bool.and_eq_false_iff, decide_eq_false_iff_not]
  omega

theorem isdigit_ne_sign (c : Char) (h : isdigit c = true) : c ≠ '-' ∧ c ≠ '+' := by
  constructor <;> (intro hc; rw [hc] at h; revert h; decide)

/-- On a string that starts with a digit `strtol` reads the run of digits. -/
theorem strtol_digit (libc : Libc) (c : Char) (cs : CStr) (e : Nat) (h : isdigit c = true) :
    strtol libc (c :: cs) e =
      if ((scanDigits 0 (c :: cs)).1 : Int) > LONG_MAX
      then ⟨LONG_MAX, (scanDigits 0 (c :: cs)).2, ERANGE⟩
      else ⟨((scanDigits 0 (c :: cs)).1 : Int), (scanDigits 0 (c :: cs)).2, e⟩ := by
  obtain ⟨h1, h2⟩ := isdigit_ne_sign c h
  have hs : skipSpace (c :: cs) = c :: cs := by simp [skipSpace, isdigit_not_space c h]
  have hsign : scanSign (c :: cs) = (false, c :: cs) := by
    unfold scanSign
    split
    · rename_i heq; simp only [List.cons.injEq] at heq; exact absurd heq.1 h1
    · rename_i heq; simp only [List.cons.injEq] at heq; exact absurd heq.1 h2
    · rfl
  unfold strtol
  rw [hs, hsign]
  simp only [strtolBody, h, if_true, Bool.false_eq_true, if_false]
  split
  · rfl
  · have : ¬ ((scanDigits 0 (c :: cs)).1 : Int) < LONG_MIN := by
      have : (0 : Int) ≤ ((scanDigits 0 (c :: cs)).1 : Int) := Int.ofNat_nonneg _
      simp only [LONG_MIN]; omega
    simp [this]

theorem decimal_eq (n : Nat) : decimal n = Nat.toDigits 10 n := rfl

theorem strtol_decimal (libc : Libc) (n e : Nat) (h : (n : Int) ≤ LONG_MAX) :
    strtol libc (decimal n) e = ⟨(n : Int), [], e⟩ := by
  obtain ⟨c, cs, hcs, hc⟩ := toDigits_head n
  have hscan : scanDigits 0 (decimal n) = (n, []) := by
    have := scanDigits_toDigits n [] (by intro c cs h; cases h)
    simpa [decimal_eq] using this
  rw [decimal_eq, hcs, strtol_digit libc c cs e hc, ← hcs, ← decimal_eq, hscan]
  simp only [gt_iff_lt]
  rw [if_neg (by omega)]

theorem strtol_decimal_big (libc : Libc) (n e : Nat) (h : LONG_MAX < (n : Int)) :
    strtol libc (decimal n) e = ⟨LONG_MAX, [], ERANGE⟩ := by
  obtain ⟨c, cs, hcs, hc⟩ := toDigits_head n
  have hscan : scanDigits 0 (decimal n) = (n, []) := by
    have := scanDigits_toDigits n [] (by intro c cs h; cases h)
    simpa [decimal_eq] using this
  rw [decimal_eq, hcs, strtol_digit libc c cs e hc, ← hcs, ← decimal_eq, hscan]
  simp only [gt_iff_lt]
  rw [if_pos h]


/-! ## The scanning loop ends -/

theorem argvSize_cons (a : CStr) (l : List CStr) :
    argvSize (a :: l) = a.length + 1 + argvSize l := by
  simp [argvSize]

theorem argvSize_dropWhile (p : CStr → Bool) (l : List CStr) :
    argvSize (l.dropWhile p) ≤ argvSize l := by
  induction l with
  | nil => simp
  | cons a as ih =>
    simp only [List.dropWhile_cons]
    split
    · rw [argvSize_cons]; omega
    · exact Nat.le_refl _

theorem size_eq (g : Getopt) : g.size = g.nextchar.length + argvSize g.rest := rfl

theorem getoptShort_size (c : Char) (cs : CStr) (rest : List CStr) :
    (getoptShort c cs rest).2.size ≤ cs.length + argvSize rest := by
  unfold getoptShort
  split
  · simp [size_eq]
  · split
    · simp [size_eq]
    · simp [size_eq]
    · split
      · simp [size_eq]
      · split
        · simp [size_eq, argvSize]
        · simp only [size_eq, List.length_nil, argvSize_cons]; omega

theorem getoptLong_size (body : CStr) (rest : List CStr) :
    (getoptLong body rest).2.size ≤ argvSize rest := by
  unfold getoptLong
  simp only
  split
  · simp [size_eq]
  · split
    · simp [size_eq]
    · split
      · simp [size_eq, argvSize]
      · simp only [size_eq, List.length_nil, argvSize_cons]; omega

/-- Every call of `getopt_long` that returns an option consumes input. -/
theorem getopt_long_size (libc : Libc) (g g1 : Getopt) (e : Char × CStr)
    (h : getopt_long libc g = (some e, g1)) : g1.size < g.size := by
  obtain ⟨rest, nextchar⟩ := g
  unfold getopt_long at h
  cases nextchar with
  | cons c cs =>
    simp only at h
    have := getoptShort_size c cs rest
    rw [h] at this
    simp only [size_eq, List.length_cons] at this ⊢
    omega
  | nil =>
    simp only at h
    have hle : argvSize (if libc.posixlyCorrect = true then rest
        else List.dropWhile isNonOption rest) ≤ argvSize rest := by
      split
      · exact Nat.le_refl _
      · exact argvSize_dropWhile _ _
    generalize (if libc.posixlyCorrect = true then rest
        else List.dropWhile isNonOption rest) = r at h hle
    cases r with
    | nil => simp at h
    | cons a as =>
      simp only at h
      split at h
      · simp at h
      · rw [argvSize_cons] at hle
        split at h
        · have := getoptLong_size ‹CStr› as
          rw [h] at this
          simp only [size_eq, List.length_nil] at this ⊢
          omega
        · rename_i c cs hne hdd
          have := getoptShort_size c cs as
          rw [h] at this
          simp only [size_eq, List.length_nil, List.length_cons] at this hle ⊢
          omega
        · simp at h

/-- With enough fuel the loop does not depend on the fuel. -/
theorem parseLoop_fuel (libc : Libc) (f1 f2 : Nat) (g : Getopt) (st : Proc)
    (h1 : g.size < f1) (h2 : g.size < f2) :
    parseLoop libc f1 g st = parseLoop libc f2 g st := by
  induction f1 generalizing f2 g st with
  | zero => omega
  | succ n ih =>
    cases f2 with
    | zero => omega
    | succ m =>
      simp only [parseLoop]
      cases hg : getopt_long libc g with
      | mk r g1 =>
        cases r with
        | none => rfl
        | some e =>
          obtain ⟨c, o⟩ := e
          have := getopt_long_size libc g g1 (c, o) hg
          simp only
          exact ih m g1 _ (by omega) (by omega)

theorem parseFrom_eq (libc : Libc) (g : Getopt) (st : Proc) :
    parseFrom libc g st =
      match getopt_long libc g with
      | (none, _) => some st
      | (some (c, optarg), g1) => parseFrom libc g1 (handle libc c optarg st) := by
  unfold parseFrom
  simp only [parseLoop]
  cases hg : getopt_long libc g with
  | mk r g1 =>
    cases r with
    | none => rfl
    | some e =>
      obtain ⟨c, o⟩ := e
      have := getopt_long_size libc g g1 (c, o) hg
      simp only
      exact parseLoop_fuel libc g.size (g1.size + 1) g1 _ (by omega) (by omega)

theorem parse_args_eq (libc : Libc) (st : Proc) (argv : List CStr) :
    parse_args libc st argv = parseFrom libc (Getopt.start argv) st := rfl

theorem getoptTrace_fuel (libc : Libc) (f1 f2 : Nat) (g : Getopt)
    (h1 : g.size < f1) (h2 : g.size < f2) :
    getoptTrace libc f1 g = getoptTrace libc f2 g := by
  induction f1 generalizing f2 g with
  | zero => omega
  | succ n ih =>
    cases f2 with
    | zero => omega
    | succ m =>
      simp only [getoptTrace]
      cases hg : getopt_long libc g with
      | mk r g1 =>
        cases r with
        | none => rfl
        | some e =>
          have := getopt_long_size libc g g1 e hg
          simp only
          rw [ih m g1 (by omega) (by omega)]

/-- The loop handles the options of the trace one after the other, and ends. -/
theorem parseLoop_trace (libc : Libc) (fuel : Nat) (g : Getopt) (st : Proc)
    (h : g.size < fuel) :
    parseLoop libc fuel g st
      = some ((getoptTrace libc fuel g).foldl (fun s e => handle libc e.1 e.2 s) st) := by
  induction fuel generalizing g st with
  | zero => omega
  | succ n ih =>
    simp only [parseLoop, getoptTrace]
    cases hg : getopt_long libc g with
    | mk r g1 =>
      cases r with
      | none => rfl
      | some e =>
        obtain ⟨c, o⟩ := e
        have := getopt_long_size libc g g1 (c, o) hg
        simp only [List.foldl_cons]
        exact ih g1 _ (by omega)

theorem parse_args_trace (libc : Libc) (st : Proc) (argv : List CStr) :
    parse_args libc st argv
      = some ((optionsOf libc argv).foldl (fun s e => handle libc e.1 e.2 s) st) :=
  parseLoop_trace libc _ _ st (Nat.lt_succ_self _)


/-! ## One option on the command line -/

theorem getopt_long_nil (libc : Libc) : getopt_long libc ⟨[], []⟩ = (none, ⟨[], []⟩) := by
  cases libc with
  | mk e p => cases p <;> rfl

theorem getopt_long_single (libc : Libc) (fl a : CStr) (c : Char) (h : (fl, c) ∈ spellings) :
    getopt_long libc ⟨[fl, a], []⟩ = (some (c, a), ⟨[], []⟩) := by
  cases libc with
  | mk e p =>
    simp only [spellings, List.mem_cons, Prod.mk.injEq, List.mem_singleton, List.not_mem_nil,
      or_false] at h
    rcases h with h | h | h | h | h | h | h | h | h | h | h | h | h | h | h | h | h | h | h | h <;>
      (obtain ⟨rfl, rfl⟩ := h; cases p <;> rfl)

/-- An argument list made of one option and its argument: the option is
handled once, with that argument. -/
theorem parse_args_single (libc : Libc) (st : Proc) (prog fl a : CStr) (c : Char)
    (h : (fl, c) ∈ spellings) :
    parse_args libc st [prog, fl, a] = some (handle libc c a st) := by
  rw [parse_args_eq]
  simp only [Getopt.start, List.drop_succ_cons, List.drop_zero]
  rw [parseFrom_eq, getopt_long_single libc fl a c h]
  simp only
  rw [parseFrom_eq, getopt_long_nil]


/-! ## Storing a decimal numeral -/

theorem toUint16_natCast (n : Nat) : toUint16 (n : Int) = n % 65536 := by
  unfold toUint16
  omega

/-- A decimal numeral that fits in a `long`, read with `errno` clear of the two
codes tested: the value is stored modulo `2 ^ 16`, nothing else changes. -/
theorem parse_int_args_decimal (libc : Libc) (f : Field) (name : String) (d : Int) (st : Proc)
    (n : Nat) (hn : (n : Int) ≤ LONG_MAX) (he : st.errno ≠ EINVAL ∧ st.errno ≠ ERANGE) :
    parse_int_args libc f (decimal n) name d st
      = { st with inputs := f.set st.inputs (n % 65536) } := by
  unfold parse_int_args
  rw [strtol_decimal libc n st.errno hn]
  simp only [toUint16_natCast]
  rw [if_neg (by simp only [not_or]; exact he)]

/-- A decimal numeral beyond `LONG_MAX`: the failure is printed and the
default is stored. -/
theorem parse_int_args_decimal_big (libc : Libc) (f : Field) (name : String) (d : Int)
    (st : Proc) (n : Nat) (hn : LONG_MAX < (n : Int)) :
    parse_int_args libc f (decimal n) name d st
      = { inputs := f.set (f.set st.inputs (toUint16 LONG_MAX)) (toUint16 d),
          errno := ERANGE,
          out := st.out ++ [Line.convFail name d ERANGE] } := by
  unfold parse_int_args
  rw [strtol_decimal_big libc n st.errno hn]
  simp

theorem set_set (f : Field) (i : Inputs) (v w : Nat) : f.set (f.set i v) w = f.set i w := by
  cases f <;> rfl

/-! ## Claims -/

/-- C1 (the code departs from the claim).  An argument that is not a decimal
numeral is not always reported and replaced by the default: with the GNU
library `--concurrency abc` stores `0` and prints no report, and with every
library `--concurrency 12abc` stores `12` and prints no report. -/
theorem C1_malformed_integer_not_defaulted :
    main glibc (args ["pgbench", "--concurrency", "abc"])
        = some ⟨{ defaults with concurrency := 0 }, [Line.hello 0], 0⟩
      ∧ ∀ libc : Libc, main libc (args ["pgbench", "--concurrency", "12abc"])
        = some ⟨{ defaults with concurrency := 12 }, [Line.hello 12], 0⟩ := by
  refine ⟨by decide, ?_⟩
  intro libc
  cases libc with
  | mk e p => cases e <;> cases p <;> decide

/-- C2 (counterexample).  With `-P 70000` the port stored is 4464 and no
warning is printed; with `-P 0` the port stored is 0 and no warning is
printed. -/
theorem C2_counterexample :
    main glibc (args ["pgbench", "-P", "70000"])
        = some ⟨{ defaults with pgport := 4464 }, [Line.hello 10], 0⟩
      ∧ main glibc (args ["pgbench", "-P", "0"])
        = some ⟨{ defaults with pgport := 0 }, [Line.hello 10], 0⟩ := by
  constructor <;> decide

/-- C2 (amended).  When `-P` or `--pgport` is followed by the decimal numeral
of a natural number `n`: if `n` fits in a `long` and `errno` holds neither
`EINVAL` nor `ERANGE` on entry, the port becomes `n` modulo 65536 and nothing
is printed, nothing else changes; if `n` exceeds `LONG_MAX`, the failure line
is printed and the port becomes the default 5432. -/
theorem C2_pgport_decimal (libc : Libc) (st : Proc) (prog fl : CStr) (n : Nat)
    (hfl : fl = "-P".toList ∨ fl = "--pgport".toList) :
    ((n : Int) ≤ LONG_MAX → st.errno ≠ EINVAL ∧ st.errno ≠ ERANGE →
        parse_args libc st [prog, fl, decimal n]
          = some { st with inputs := { st.inputs with pgport := n % 65536 } })
      ∧ (LONG_MAX < (n : Int) →
        parse_args libc st [prog, fl, decimal n]
          = some { inputs := { st.inputs with pgport := 5432 },
                   errno := ERANGE,
                   out := st.out ++ [Line.convFail "pgport" 5432 ERANGE] }) := by
  have hmem : (fl, 'P') ∈ spellings := by
    rcases hfl with h | h <;> (subst h; decide)
  rw [parse_args_single libc st prog fl (decimal n) 'P' hmem]
  have hh : ∀ a, handle libc 'P' a st = parse_int_args libc .pgport a "pgport" 5432 st := by
    intro a; rfl
  rw [hh]
  constructor
  · intro hn he
    rw [parse_int_args_decimal libc .pgport "pgport" 5432 st n hn he]
    rfl
  · intro hn
    rw [parse_int_args_decimal_big libc .pgport "pgport" 5432 st n hn, set_set]
    rfl

/-- C2 (amended), at `--pgport 65536` from the defaults. -/
theorem C2_pgport_decimal_witness :
    parse_args glibc ⟨defaults, 0, []⟩ [[], "--pgport".toList, decimal 65536]
      = some { (⟨defaults, 0, []⟩ : Proc) with
                 inputs := { defaults with pgport := 65536 % 65536 } } :=
  (C2_pgport_decimal glibc ⟨defaults, 0, []⟩ [] "--pgport".toList 65536 (Or.inr rfl)).1
    (by decide) (by decide)

/-- C3 (the code departs from the claim).  After `-O json -O xml` the line
`Invalid output format xml. Defaulting to TEXT` is printed, and the format
stays JSON. -/
theorem C3_invalid_format_keeps_json (libc : Libc) :
    main libc (args ["pgbench", "-O", "json", "-O", "xml"])
      = some ⟨{ defaults with output_format := .JSON },
              [Line.invalidFormat "xml".toList, Line.hello 10], 0⟩ := by
  cases libc with
  | mk e p => cases e <;> cases p <;> decide


theorem tolower_eq (c : Char) : tolower c = c.toLower := rfl

/-- Strings that agree after `tolower` compare equal. -/
theorem strcasecmp_eq_zero (s t : CStr) (h : s.map Char.toLower = t.map Char.toLower) :
    strcasecmp s t = 0 := by
  induction s generalizing t with
  | nil =>
    cases t with
    | nil => rfl
    | cons b bs => simp at h
  | cons a as ih =>
    cases t with
    | nil => simp at h
    | cons b bs =>
      simp only [List.map_cons, List.cons.injEq] at h
      simp only [strcasecmp, tolower_eq, h.1, if_true]
      exact ih bs h.2

/-- Strings whose first characters differ after `tolower` compare unequal. -/
theorem strcasecmp_ne_zero (a b : Char) (as bs : CStr) (h : a.toLower ≠ b.toLower) :
    strcasecmp (a :: as) (b :: bs) ≠ 0 := by
  simp only [strcasecmp, tolower_eq, if_neg h]
  intro h0
  apply h
  apply Char.ext
  apply UInt32.ext
  have : (a.toLower.toNat : Int) = (b.toLower.toNat : Int) := by omega
  exact_mod_cast this

theorem handle_O (libc : Libc) (s : CStr) (st : Proc) :
    handle libc 'O' s st =
      if strcasecmp s "text".toList = 0 then
        { st with inputs := { st.inputs with output_format := .TEXT } }
      else if strcasecmp s "json".toList = 0 then
        { st with inputs := { st.inputs with output_format := .JSON } }
      else { st with out := st.out ++ [Line.invalidFormat s] } := rfl

/-- C4.  An argument of `-O` or `--output-format` that is `text` up to the
case of its ASCII letters selects TEXT, one that is `json` up to case selects
JSON; nothing is printed and nothing else changes, whatever the state
before. -/
theorem C4_output_format_ignores_case (libc : Libc) (st : Proc) (prog fl s : CStr)
    (hfl : fl = "-O".toList ∨ fl = "--output-format".toList) :
    (s.map Char.toLower = "text".toList →
        parse_args libc st [prog, fl, s]
          = some { st with inputs := { st.inputs with output_format := .TEXT } })
      ∧ (s.map Char.toLower = "json".toList →
        parse_args libc st [prog, fl, s]
          = some { st with inputs := { st.inputs with output_format := .JSON } }) := by
  have hmem : (fl, 'O') ∈ spellings := by
    rcases hfl with h | h <;> (subst h; decide)
  rw [parse_args_single libc st prog fl s 'O' hmem]
  constructor
  · intro h
    have h0 : strcasecmp s "text".toList = 0 := strcasecmp_eq_zero s _ (by rw [h]; decide)
    rw [handle_O, if_pos h0]
  · intro h
    have h0 : strcasecmp s "json".toList = 0 := strcasecmp_eq_zero s _ (by rw [h]; decide)
    have h1 : strcasecmp s "text".toList ≠ 0 := by
      cases s with
      | nil => simp at h
      | cons a as =>
        simp only [List.map_cons] at h
        have ha : a.toLower = 'j' := by
          have := congrArg List.head? h
          simpa using this
        exact strcasecmp_ne_zero a 't' as _ (by rw [ha]; decide)
    rw [handle_O, if_neg h1, if_pos h0]

/-- C4, at `-O JSON` from the defaults. -/
theorem C4_output_format_ignores_case_witness :
    parse_args glibc ⟨defaults, 0, []⟩ [[], "-O".toList, "JSON".toList]
      = some { (⟨defaults, 0, []⟩ : Proc) with
                 inputs := { defaults with output_format := .JSON } } :=
  (C4_output_format_ignores_case glibc ⟨defaults, 0, []⟩ [] "-O".toList "JSON".toList
    (Or.inl rfl)).2 (by decide)

/-- The scan of an argument list without options ends at once. -/
theorem getopt_long_no_options (libc : Libc) (l : List CStr)
    (h : ∀ a ∈ l, isNonOption a = true) : (getopt_long libc ⟨l, []⟩).1 = none := by
  unfold getopt_long
  simp only
  split
  · rename_i r hr
    rfl
  · rename_i r a as hr
    have hsub : ∀ x ∈ (if libc.posixlyCorrect = true then l else List.dropWhile isNonOption l),
        isNonOption x = true := by
      intro x hx
      split at hx
      · exact h x hx
      · exact h x ((List.dropWhile_sublist _).subset hx)
    have ha : isNonOption a = true := hsub a (by rw [hr]; exact List.mem_cons_self _ _)
    split
    · rfl
    · split
      · simp [isNonOption] at ha
      · simp [isNonOption] at ha
      · rfl

/-- C5.  When no element of the argument list after the program name is an
option (each one either does not start with `-` or is `-` alone), the
configuration is the defaults: concurrency 10, duration 30, timeout 2,
warm-up 5, format TEXT, host `127.0.0.1`, port 5432, user `postgres`, empty
query file; only the greeting is printed and the exit status is 0. -/
theorem C5_defaults_without_options (libc : Libc) (argv : List CStr)
    (h : ∀ a ∈ argv.drop 1, a.head? ≠ some '-' ∨ a = ['-']) :
    main libc argv
      = some ⟨{ pgport := 5432, concurrency := 10, duration := 30, timeout := 2,
                warmup_time := 5, output_format := .TEXT, pghost := "127.0.0.1".toList,
                pguser := "postgres".toList, queryfile := [] },
              [Line.hello 10], 0⟩ := by
  have hno : ∀ a ∈ argv.drop 1, isNonOption a = true := by
    intro a ha
    rcases h a ha with h1 | h1
    · unfold isNonOption
      split
      · simp at h1
      · rfl
    · rw [h1]; rfl
  have hg := getopt_long_no_options libc (argv.drop 1) hno
  have hp : parse_args libc ⟨defaults, 0, []⟩ argv = some ⟨defaults, 0, []⟩ := by
    rw [parse_args_eq, parseFrom_eq]
    simp only [Getopt.start]
    cases hgl : getopt_long libc ⟨argv.drop 1, []⟩ with
    | mk r g1 =>
      rw [hgl] at hg
      simp only at hg
      subst hg
      rfl
  simp only [main, hp]
  rfl

/-- C5, with no argument at all and with two operands. -/
theorem C5_defaults_without_options_witness :
    main glibc (args ["pgbench"])
        = some ⟨{ pgport := 5432, concurrency := 10, duration := 30, timeout := 2,
                  warmup_time := 5, output_format := .TEXT, pghost := "127.0.0.1".toList,
                  pguser := "postgres".toList, queryfile := [] },
                [Line.hello 10], 0⟩
      ∧ main glibc (args ["pgbench", "run", "-"])
        = some ⟨{ pgport := 5432, concurrency := 10, duration := 30, timeout := 2,
                  warmup_time := 5, output_format := .TEXT, pghost := "127.0.0.1".toList,
                  pguser := "postgres".toList, queryfile := [] },
                [Line.hello 10], 0⟩ :=
  ⟨C5_defaults_without_options glibc (args ["pgbench"]) (by decide),
   C5_defaults_without_options glibc (args ["pgbench", "run", "-"]) (by decide)⟩


/-- C6.  One integer option followed by the decimal numeral of `n`, with
`n ≤ 65535`, read from the defaults with `errno` zero: the field of that
option becomes `n`, every other field keeps its default, `errno` stays zero
and nothing is printed.  This holds for both spellings of each of the five
options. -/
theorem C6_integer_option_stores_value (libc : Libc) (prog fl : CStr) (n : Nat)
    (hn : n ≤ 65535) :
    (fl = "-C".toList ∨ fl = "--concurrency".toList →
        parse_args libc ⟨defaults, 0, []⟩ [prog, fl, decimal n]
          = some ⟨{ defaults with concurrency := n }, 0, []⟩)
      ∧ (fl = "-D".toList ∨ fl = "--duration".toList →
        parse_args libc ⟨defaults, 0, []⟩ [prog, fl, decimal n]
          = some ⟨{ defaults with duration := n }, 0, []⟩)
      ∧ (fl = "-T".toList ∨ fl = "--timeout".toList →
        parse_args libc ⟨defaults, 0, []⟩ [prog, fl, decimal n]
          = some ⟨{ defaults with timeout := n }, 0, []⟩)
      ∧ (fl = "-W".toList ∨ fl = "--warmup-time".toList →
        parse_args libc ⟨defaults, 0, []⟩ [prog, fl, decimal n]
          = some ⟨{ defaults with warmup_time := n }, 0, []⟩)
      ∧ (fl = "-P".toList ∨ fl = "--pgport".toList →
        parse_args libc ⟨defaults, 0, []⟩ [prog, fl, decimal n]
          = some ⟨{ defaults with pgport := n }, 0, []⟩) := by
  have hlong : (n : Int) ≤ LONG_MAX := by simp only [LONG_MAX]; omega
  have hmod : n % 65536 = n := Nat.mod_eq_of_lt (by omega)
  have he : (⟨defaults, 0, []⟩ : Proc).errno ≠ EINVAL ∧ (⟨defaults, 0, []⟩ : Proc).errno ≠ ERANGE := by
    decide
  have key : ∀ (f : Field) (name : String) (d : Int),
      parse_int_args libc f (decimal n) name d ⟨defaults, 0, []⟩
        = ⟨f.set defaults n, 0, []⟩ := by
    intro f name d
    rw [parse_int_args_decimal libc f name d _ n hlong he, hmod]
  refine ⟨?_, ?_, ?_, ?_, ?_⟩
  · intro hfl
    have hmem : (fl, 'C') ∈ spellings := by rcases hfl with h | h <;> (subst h; decide)
    rw [parse_args_single libc _ prog fl _ 'C' hmem]
    exact congrArg some (key .concurrency "concurrency" 10)
  · intro hfl
    have hmem : (fl, 'D') ∈ spellings := by rcases hfl with h | h <;> (subst h; decide)
    rw [parse_args_single libc _ prog fl _ 'D' hmem]
    exact congrArg some (key .duration "duration" 30)
  · intro hfl
    have hmem : (fl, 'T') ∈ spellings := by rcases hfl with h | h <;> (subst h; decide)
    rw [parse_args_single libc _ prog fl _ 'T' hmem]
    exact congrArg some (key .timeout "timeout" 2)
  · intro hfl
    have hmem : (fl, 'W') ∈ spellings := by rcases hfl with h | h <;> (subst h; decide)
    rw [parse_args_single libc _ prog fl _ 'W' hmem]
    exact congrArg some (key .warmup_time "warmup time" 5)
  · intro hfl
    have hmem : (fl, 'P') ∈ spellings := by rcases hfl with h | h <;> (subst h; decide)
    rw [parse_args_single libc _ prog fl _ 'P' hmem]
    exact congrArg some (key .pgport "pgport" 5432)

/-- C6, at `--duration 65535`. -/
theorem C6_integer_option_stores_value_witness :
    parse_args glibc ⟨defaults, 0, []⟩ [[], "--duration".toList, decimal 65535]
      = some ⟨{ defaults with duration := 65535 }, 0, []⟩ :=
  (C6_integer_option_stores_value glibc [] "--duration".toList 65535 (by decide)).2.1
    (Or.inr rfl)

/-! ## The concurrency field along the loop -/

/-- C8.  For every argument list the loop of `parse_args` ends within the
iterations it is given, and `main` returns 0: the program never ends the way
`die` ends it. -/
theorem C8_main_returns_zero (libc : Libc) (argv : List CStr) :
    ∃ e, main libc argv = some e ∧ e.status = 0 ∧ ∀ st, e ≠ die st := by
  unfold main
  rw [parse_args_trace]
  refine ⟨_, rfl, rfl, ?_⟩
  intro st hst
  have := congrArg Exit.status hst
  simp [die] at this


/-- A call of `parse_int_args` writes the designated member only. -/
theorem parse_int_args_frame (libc : Libc) (f : Field) (a : CStr) (name : String) (d : Int)
    (st : Proc) :
    (parse_int_args libc f a name d st).inputs
      = f.set st.inputs (f.get (parse_int_args libc f a name d st).inputs) := by
  unfold parse_int_args
  simp only
  split <;> (cases f <;> rfl)

/-- C9.  One option changes at most its own field.  On the command line,
`-d`/`--driver` with any argument leaves the whole state as it was, and
`-H`/`--pghost`, `-U`/`--pguser`, `-Q`/`--queryfile` store the argument as it
is in `pghost`, `pguser`, `queryfile` and change nothing else.  In the
`switch`, each of `C`, `D`, `T`, `W`, `P`, `O` leaves every field of `Inputs`
but its own as it was, and a character that is no option changes nothing. -/
theorem C9_option_changes_own_field (libc : Libc) (st : Proc) (prog fl a : CStr) :
    (fl = "-d".toList ∨ fl = "--driver".toList →
        parse_args libc st [prog, fl, a] = some st)
      ∧ (fl = "-H".toList ∨ fl = "--pghost".toList →
        parse_args libc st [prog, fl, a]
          = some { st with inputs := { st.inputs with pghost := a } })
      ∧ (fl = "-U".toList ∨ fl = "--pguser".toList →
        parse_args libc st [prog, fl, a]
          = some { st with inputs := { st.inputs with pguser := a } })
      ∧ (fl = "-Q".toList ∨ fl = "--queryfile".toList →
        parse_args libc st [prog, fl, a]
          = some { st with inputs := { st.inputs with queryfile := a } })
      ∧ (handle libc 'C' a st).inputs
          = { st.inputs with concurrency := (handle libc 'C' a st).inputs.concurrency }
      ∧ (handle libc 'D' a st).inputs
          = { st.inputs with duration := (handle libc 'D' a st).inputs.duration }
      ∧ (handle libc 'T' a st).inputs
          = { st.inputs with timeout := (handle libc 'T' a st).inputs.timeout }
      ∧ (handle libc 'W' a st).inputs
          = { st.inputs with warmup_time := (handle libc 'W' a st).inputs.warmup_time }
      ∧ (handle libc 'P' a st).inputs
          = { st.inputs with pgport := (handle libc 'P' a st).inputs.pgport }
      ∧ (handle libc 'O' a st).inputs
          = { st.inputs with output_format := (handle libc 'O' a st).inputs.output_format }
      ∧ handle libc '?' a st = st := by
  refine ⟨?_, ?_, ?_, ?_, ?_, ?_, ?_, ?_, ?_, ?_, rfl⟩
  · intro hfl
    have hmem : (fl, 'd') ∈ spellings := by rcases hfl with h | h <;> (subst h; decide)
    rw [parse_args_single libc st prog fl a 'd' hmem]
    rfl
  · intro hfl
    have hmem : (fl, 'H') ∈ spellings := by rcases hfl with h | h <;> (subst h; decide)
    rw [parse_args_single libc st prog fl a 'H' hmem]
    rfl
  · intro hfl
    have hmem : (fl, 'U') ∈ spellings := by rcases hfl with h | h <;> (subst h; decide)
    rw [parse_args_single libc st prog fl a 'U' hmem]
    rfl
  · intro hfl
    have hmem : (fl, 'Q') ∈ spellings := by rcases hfl with h | h <;> (subst h; decide)
    rw [parse_args_single libc st prog fl a 'Q' hmem]
    rfl
  · exact parse_int_args_frame libc .concurrency a "concurrency" 10 st
  · exact parse_int_args_frame libc .duration a "duration" 30 st
  · exact parse_int_args_frame libc .timeout a "timeout" 2 st
  · exact parse_int_args_frame libc .warmup_time a "warmup time" 5 st
  · exact parse_int_args_frame libc .pgport a "pgport" 5432 st
  · rw [handle_O]
    split
    · rfl
    · split <;> rfl

/-- C9, at `--driver -x`, `-H --`, `-U ""` and `--queryfile q.sql`. -/
theorem C9_option_changes_own_field_witness :
    parse_args glibc ⟨defaults, 0, []⟩ (args ["pgbench", "--driver", "-x"])
        = some ⟨defaults, 0, []⟩
      ∧ parse_args glibc ⟨defaults, 0, []⟩ (args ["pgbench", "-H", "--"])
        = some ⟨{ defaults with pghost := "--".toList }, 0, []⟩
      ∧ parse_args glibc ⟨defaults, 0, []⟩ (args ["pgbench", "-U", ""])
        = some ⟨{ defaults with pguser := [] }, 0, []⟩
      ∧ parse_args glibc ⟨defaults, 0, []⟩ (args ["pgbench", "--queryfile", "q.sql"])
        = some ⟨{ defaults with queryfile := "q.sql".toList }, 0, []⟩ :=
  ⟨(C9_option_changes_own_field glibc ⟨defaults, 0, []⟩ "pgbench".toList "--driver".toList
      "-x".toList).1 (Or.inr rfl),
   (C9_option_changes_own_field glibc ⟨defaults, 0, []⟩ "pgbench".toList "-H".toList
      "--".toList).2.1 (Or.inl rfl),
   (C9_option_changes_own_field glibc ⟨defaults, 0, []⟩ "pgbench".toList "-U".toList
      "".toList).2.2.1 (Or.inl rfl),
   (C9_option_changes_own_field glibc ⟨defaults, 0, []⟩ "pgbench".toList "--queryfile".toList
      "q.sql".toList).2.2.2.1 (Or.inr rfl)⟩


/-! ## Signs, trailing text and stale `errno` -/

/-- The numeral of `n` followed by text that does not go on with a digit:
`strtol` reads `n` and stops at that text. -/
theorem strtol_decimal_then (libc : Libc) (n e : Nat) (tl : CStr)
    (htl : ∀ c cs, tl = c :: cs → isdigit c = false) :
    strtol libc (decimal n ++ tl) e =
      if (n : Int) > LONG_MAX then ⟨LONG_MAX, tl, ERANGE⟩ else ⟨(n : Int), tl, e⟩ := by
  obtain ⟨c, cs, hcs, hc⟩ := toDigits_head n
  have hscan : scanDigits 0 (decimal n ++ tl) = (n, tl) := by
    rw [decimal_eq]; exact scanDigits_toDigits n tl htl
  have hcons : decimal n ++ tl = c :: (cs ++ tl) := by
    rw [decimal_eq, hcs]; rfl
  rw [hcons, strtol_digit libc c (cs ++ tl) e hc, ← hcons, hscan]

/-- The numeral of a negative number that fits in a `long`. -/
theorem strtol_decimal_neg (libc : Libc) (m e : Nat) (h : LONG_MIN ≤ -((m : Int) + 1)) :
    strtol libc ('-' :: decimal (m + 1)) e = ⟨-((m : Int) + 1), [], e⟩ := by
  obtain ⟨c, cs, hcs, hc⟩ := toDigits_head (m + 1)
  have hscan : scanDigits 0 (decimal (m + 1)) = (m + 1, []) := by
    have := scanDigits_toDigits (m + 1) [] (by intro c cs h; cases h)
    simpa [decimal_eq] using this
  have hs : skipSpace ('-' :: decimal (m + 1)) = '-' :: decimal (m + 1) := by
    simp only [skipSpace]
    rw [if_neg (by decide)]
  have hsign : scanSign ('-' :: decimal (m + 1)) = (true, decimal (m + 1)) := rfl
  unfold strtol
  rw [hs, hsign]
  simp only
  have hbody : ∀ b : CStr, b = c :: cs → scanDigits 0 b = (m + 1, []) →
      strtolBody libc ('-' :: b) true b e = ⟨-((m : Int) + 1), [], e⟩ := by
    intro b hb hsc
    subst hb
    simp only [strtolBody, hc, if_true, hsc]
    have h1 : ¬ (-(((m + 1 : Nat) : Int)) > LONG_MAX) := by simp only [LONG_MAX]; omega
    have h2 : ¬ (-(((m + 1 : Nat) : Int)) < LONG_MIN) := by
      simp only [LONG_MIN] at h ⊢; omega
    rw [if_neg h1, if_neg h2]
    simp
  exact hbody (decimal (m + 1)) (by rw [decimal_eq, hcs]) hscan

/-- Where `strtol` finds no digits it returns 0 and, at most, reports
`EINVAL`. -/
theorem strtol_noDigits (libc : Libc) (s : CStr) (e : Nat) (h : noDigits s = true) :
    strtol libc s e = ⟨0, s, if libc.einvalOnNoConversion then EINVAL else e⟩ := by
  unfold noDigits at h
  unfold strtol
  generalize (scanSign (skipSpace s)).2 = body at h
  generalize (scanSign (skipSpace s)).1 = neg
  cases body with
  | nil => rfl
  | cons c cs =>
    simp only [Bool.not_eq_true'] at h
    simp [strtolBody, h]

theorem toUint16_eq (z : Int) : toUint16 z = (z % 65536).toNat := rfl


/-- C11 (the code departs from the claim).  After `-C` with a value beyond
`long`, `errno` stays `ERANGE`, and the well-formed `-D 60` that follows is
reported as a failed conversion and replaced by the default 30; on its own
`-D 60` stores 60.  This holds with every library. -/
theorem C11_stale_errno_defaults_later_option (libc : Libc) :
    main libc (args ["pgbench", "-C", "99999999999999999999999", "-D", "60"])
        = some ⟨{ defaults with concurrency := 10, duration := 30 },
                [Line.convFail "concurrency" 10 34, Line.convFail "duration" 30 34,
                 Line.hello 10], 0⟩
      ∧ main libc (args ["pgbench", "-D", "60"])
        = some ⟨{ defaults with duration := 60 }, [Line.hello 10], 0⟩ := by
  cases libc with
  | mk e p => cases e <;> cases p <;> (constructor <;> decide)

/-- C12.  For every integer `v` that fits in a `long`, given as its decimal
numeral while `errno` holds neither `EINVAL` nor `ERANGE` (in particular when
it is clear), `parse_int_args` stores `v` modulo `2 ^ 16` in the designated
field, prints nothing and changes nothing else. -/
theorem C12_decimal_stored_modulo (libc : Libc) (f : Field) (name : String) (d : Int)
    (st : Proc) (v : Int) (hlo : LONG_MIN ≤ v) (hhi : v ≤ LONG_MAX)
    (he : st.errno ≠ EINVAL ∧ st.errno ≠ ERANGE) :
    parse_int_args libc f (decimalInt v) name d st
      = { st with inputs := f.set st.inputs (v % 65536).toNat } := by
  cases v with
  | ofNat m =>
    have hm : ((m : Nat) : Int) ≤ LONG_MAX := hhi
    have := parse_int_args_decimal libc f name d st m hm he
    have hmod : (Int.ofNat m % 65536).toNat = m % 65536 := by
      show ((m : Int) % 65536).toNat = m % 65536
      omega
    rw [hmod]
    exact this
  | negSucc m =>
    have hneg : Int.negSucc m = -((m : Int) + 1) := Int.negSucc_eq m
    have hlo2 : LONG_MIN ≤ -((m : Int) + 1) := by rw [← hneg]; exact hlo
    show parse_int_args libc f ('-' :: decimal (m + 1)) name d st = _
    unfold parse_int_args
    rw [strtol_decimal_neg libc m st.errno hlo2]
    simp only
    rw [if_neg (by simp only [not_or]; exact he), toUint16_eq, hneg]

/-- C12, at the numerals `65546`, `70000` and `-1`. -/
theorem C12_decimal_stored_modulo_witness :
    parse_int_args glibc .concurrency (decimalInt 65546) "concurrency" 10 ⟨defaults, 0, []⟩
        = ⟨{ defaults with concurrency := 10 }, 0, []⟩
      ∧ parse_int_args glibc .pgport (decimalInt 70000) "pgport" 5432 ⟨defaults, 0, []⟩
        = ⟨{ defaults with pgport := 4464 }, 0, []⟩
      ∧ parse_int_args glibc .timeout (decimalInt (-1)) "timeout" 2 ⟨defaults, 0, []⟩
        = ⟨{ defaults with timeout := 65535 }, 0, []⟩ :=
  ⟨C12_decimal_stored_modulo glibc .concurrency "concurrency" 10 ⟨defaults, 0, []⟩ 65546
      (by decide) (by decide) (by decide),
   C12_decimal_stored_modulo glibc .pgport "pgport" 5432 ⟨defaults, 0, []⟩ 70000
      (by decide) (by decide) (by decide),
   C12_decimal_stored_modulo glibc .timeout "timeout" 2 ⟨defaults, 0, []⟩ (-1)
      (by decide) (by decide) (by decide)⟩

/-- C13 (counterexample).  `-C 70000abc` stores 4464, not the value 70000 of
the prefix; `-C 12abc` after an option that left `errno` at `ERANGE` prints a
failure line and stores the default; `-C 99999999999999999999abc` prints a
failure line and stores the default. -/
theorem C13_counterexample :
    main glibc (args ["pgbench", "-C", "70000abc"])
        = some ⟨{ defaults with concurrency := 4464 }, [Line.hello 4464], 0⟩
      ∧ main glibc (args ["pgbench", "-D", "99999999999999999999", "-C", "12abc"])
        = some ⟨{ defaults with duration := 30, concurrency := 10 },
                [Line.convFail "duration" 30 34, Line.convFail "concurrency" 10 34,
                 Line.hello 10], 0⟩
      ∧ main glibc (args ["pgbench", "-C", "99999999999999999999abc"])
        = some ⟨{ defaults with concurrency := 10 },
                [Line.convFail "concurrency" 10 34, Line.hello 10], 0⟩ := by
  refine ⟨?_, ?_, ?_⟩ <;> decide

/-- C13 (amended).  What `parse_int_args` does depends on the value and the
`errno` that `strtol` leaves, never on `endptr`.  While `errno` holds neither
`EINVAL` nor `ERANGE` on entry: an argument made of the decimal numeral of
`p`, with `p` within `long`, followed by any text that does not go on with a
digit, stores `p` modulo `2 ^ 16` (so `p` itself up to 65535) and prints
nothing; an argument in which `strtol` finds no digits stores 0, not the
default, and prints nothing, when the library leaves `errno` untouched in
that case. -/
theorem C13_trailing_text_ignored (libc : Libc) (f : Field) (name : String) (d : Int)
    (st : Proc) (he : st.errno ≠ EINVAL ∧ st.errno ≠ ERANGE) :
    (∀ (p : Nat) (tl : CStr), (∀ c cs, tl = c :: cs → isdigit c = false) →
        (p : Int) ≤ LONG_MAX →
        parse_int_args libc f (decimal p ++ tl) name d st
          = { st with inputs := f.set st.inputs (p % 65536) })
      ∧ (∀ s : CStr, noDigits s = true → libc.einvalOnNoConversion = false →
        parse_int_args libc f s name d st = { st with inputs := f.set st.inputs 0 })
      ∧ (∀ a b : CStr,
        (strtol libc a st.errno).value = (strtol libc b st.errno).value →
        (strtol libc a st.errno).errno = (strtol libc b st.errno).errno →
        parse_int_args libc f a name d st = parse_int_args libc f b name d st) := by
  have hne : ¬ (st.errno = EINVAL ∨ st.errno = ERANGE) := by
    simp only [not_or]; exact he
  refine ⟨?_, ?_, ?_⟩
  · intro p tl htl hp
    unfold parse_int_args
    rw [strtol_decimal_then libc p st.errno tl htl, if_neg (not_lt.mpr hp)]
    simp only [toUint16_natCast]
    rw [if_neg hne]
  · intro s hs hlib
    unfold parse_int_args
    rw [strtol_noDigits libc s st.errno hs, hlib]
    simp only [Bool.false_eq_true, if_false]
    rw [if_neg hne]
    rfl
  · intro a b hv herr
    unfold parse_int_args
    simp only [hv, herr]

/-- C13 (amended), at `12abc` and at `abc` with the GNU library. -/
theorem C13_trailing_text_ignored_witness :
    parse_int_args glibc .concurrency (decimal 12 ++ "abc".toList) "concurrency" 10
          ⟨defaults, 0, []⟩
        = ⟨{ defaults with concurrency := 12 }, 0, []⟩
      ∧ parse_int_args glibc .concurrency "abc".toList "concurrency" 10 ⟨defaults, 0, []⟩
        = ⟨{ defaults with concurrency := 0 }, 0, []⟩ :=
  ⟨(C13_trailing_text_ignored glibc .concurrency "concurrency" 10 ⟨defaults, 0, []⟩
      (by decide)).1 12 "abc".toList
      (by
        intro c cs h
        have hc : c = 'a' := by
          have := congrArg List.head? h
          simpa using this.symm
        rw [hc]; decide)
      (by decide),
   (C13_trailing_text_ignored glibc .concurrency "concurrency" 10 ⟨defaults, 0, []⟩
      (by decide)).2.1 "abc".toList (by decide) rfl⟩

end Pgbench
